import Mathlib

/-!
# Verification of the gas-storage static intrinsic valuation engine

Shallow embedding of `src/server/storageOptimization.ts`: the forward-curve
normalizer (`prepareForwardPrices`), the spread-matrix builder
(`buildSpreadMatrix`), the greedy allocator and the schedule assembler
(`optimizeStorage`).  JavaScript numbers are modelled as real numbers;
`Math.round` is Mathlib's `round` (both round halves up, also for negative
arguments); `Math.pow` on a nonnegative base is `Real.rpow`.
-/

set_option maxHeartbeats 1000000

noncomputable section

/-- Facility parameters, mirroring the `FacilityParams` interface. -/
structure FacilityParams where
  capacity : ℝ
  maxInjectionRate : ℝ
  maxWithdrawalRate : ℝ
  injectionCost : ℝ
  withdrawalCost : ℝ
  initialInventory : ℝ
  discountRate : ℝ

/-- One point of the forward curve, mirroring the `ForwardPrice` interface. -/
structure ForwardPrice where
  contract : String
  month : String
  price : ℝ
  expiryDate : String
  daysInMonth : ℝ

instance : Inhabited ForwardPrice := ⟨⟨"", "", 0, "", 0⟩⟩

/-- One row of the output schedule, mirroring the `MonthlySchedule` interface. -/
structure MonthlySchedule where
  month : String
  injection : ℝ
  withdrawal : ℝ
  netFlow : ℝ
  endingInventory : ℝ
  price : ℝ

instance : Inhabited MonthlySchedule := ⟨⟨"", 0, 0, 0, 0, 0⟩⟩

/-- The result record, mirroring the `OptimizationResult` interface. -/
structure OptimizationResult where
  schedule : List MonthlySchedule
  totalValue : ℝ
  totalInjection : ℝ
  totalWithdrawal : ℝ
  peakInventory : ℝ
  facilityParams : FacilityParams

/-- Source `getDiscountFactor(monthsFromNow, annualRate)`:
`Math.pow(1 + annualRate, -monthsFromNow / 12)`.  The exponent is a real
number, so this is `Real.rpow`. -/
def getDiscountFactor (monthsFromNow : ℕ) (annualRate : ℝ) : ℝ :=
  (1 + annualRate) ^ (-(monthsFromNow : ℝ) / 12)

/-- Source `getMaxMonthlyInjection(params, daysInMonth)`. -/
def getMaxMonthlyInjection (params : FacilityParams) (daysInMonth : ℝ) : ℝ :=
  params.maxInjectionRate * daysInMonth

/-- Source `getMaxMonthlyWithdrawal(params, daysInMonth)`. -/
def getMaxMonthlyWithdrawal (params : FacilityParams) (daysInMonth : ℝ) : ℝ :=
  params.maxWithdrawalRate * daysInMonth

/-- Reads `prices[k].price`, with the out-of-range default irrelevant: all accesses
in the source are in range. -/
def priceAt (prices : List ForwardPrice) (k : ℕ) : ℝ :=
  (prices.getD k default).price

/-- Reads `prices[k].daysInMonth`. -/
def daysAt (prices : List ForwardPrice) (k : ℕ) : ℝ :=
  (prices.getD k default).daysInMonth

/-- Source `buildSpreadMatrix(prices, params)`: an `n × n` matrix, zero-initialised,
whose `(i, j)` entry for `j > i` is the discounted withdrawal revenue at `j`
minus the discounted injection cost at `i`. -/
def buildSpreadMatrix (prices : List ForwardPrice) (params : FacilityParams) :
    List (List ℝ) :=
  (List.range prices.length).map fun i =>
    (List.range prices.length).map fun j =>
      if i < j then
        let dfI := getDiscountFactor i params.discountRate
        let dfJ := getDiscountFactor j params.discountRate
        let injectionCostTotal := (priceAt prices i + params.injectionCost) * dfI
        let withdrawalRevenueTotal := (priceAt prices j - params.withdrawalCost) * dfJ
        withdrawalRevenueTotal - injectionCostTotal
      else 0

/-- Read entry `spreads[i][j]` of the spread matrix. -/
def spreadAt (spreads : List (List ℝ)) (i j : ℕ) : ℝ :=
  (spreads.getD i []).getD j 0

theorem spreadAt_buildSpreadMatrix (prices : List ForwardPrice)
    (params : FacilityParams) (i j : ℕ) (hi : i < prices.length)
    (hj : j < prices.length) :
    spreadAt (buildSpreadMatrix prices params) i j =
      if i < j then
        (priceAt prices j - params.withdrawalCost) *
            getDiscountFactor j params.discountRate -
          (priceAt prices i + params.injectionCost) *
            getDiscountFactor i params.discountRate
      else 0 := by
  have hrow : (buildSpreadMatrix prices params).getD i [] =
      (List.range prices.length).map fun j =>
        if i < j then
          (priceAt prices j - params.withdrawalCost) *
              getDiscountFactor j params.discountRate -
            (priceAt prices i + params.injectionCost) *
              getDiscountFactor i params.discountRate
        else 0 := by
    unfold buildSpreadMatrix
    rw [List.getD_eq_getElem _ _ (by simpa using hi), List.getElem_map,
      List.getElem_range]
  unfold spreadAt
  rw [hrow, List.getD_eq_getElem _ _ (by simpa using hj), List.getElem_map,
    List.getElem_range]

/-- One entry of the `positiveSpread` work list: injection month `i`,
withdrawal month `j`, and the spread value. -/
structure SpreadEntry where
  i : ℕ
  j : ℕ
  spread : ℝ

/-- The `positiveSpread` list: all pairs `(i, j)` with `i < j < n` whose
spread-matrix entry is strictly positive, in the source's enumeration order
(`i` outer, `j` inner). -/
def positiveSpreadEntries (n : ℕ) (spreads : List (List ℝ)) : List SpreadEntry :=
  (List.range n).flatMap fun i =>
    (List.range' (i + 1) (n - (i + 1))).filterMap fun j =>
      if 0 < spreadAt spreads i j then some ⟨i, j, spreadAt spreads i j⟩
      else none

/-- Source `positiveSpread.sort((a, b) => b.spread - a.spread)`: a stable sort
descending by spread value. -/
def sortedSpreadEntries (prices : List ForwardPrice) (params : FacilityParams) :
    List SpreadEntry :=
  (positiveSpreadEntries prices.length (buildSpreadMatrix prices params)).mergeSort
    fun a b => decide (b.spread ≤ a.spread)

/-- The allocator's mutable arrays (`injections`, `withdrawals`,
`remainingInjectionCapacity`, `remainingWithdrawalCapacity`) and the running
`totalValue`, modelled as functions on period indices. -/
structure AllocState where
  injections : ℕ → ℝ
  withdrawals : ℕ → ℝ
  remainingInjectionCapacity : ℕ → ℝ
  remainingWithdrawalCapacity : ℕ → ℝ
  totalValue : ℝ

/-- The sum `injections[0] + ... + injections[k] - withdrawals[0] - ... - withdrawals[k]`. -/
def cumulativeNet (inj wd : ℕ → ℝ) (k : ℕ) : ℝ :=
  ∑ t ∈ Finset.range (k + 1), (inj t - wd t)

/-- The inventory trajectory the allocator recomputes on each iteration:
`inventory[k] = initialInventory + cumulative net flow through period k`. -/
def inventoryAt (init : ℝ) (inj wd : ℕ → ℝ) (k : ℕ) : ℝ :=
  init + cumulativeNet inj wd k

/-- The loop body's local `minCapacityBetween`: the minimum, over the holding
interval `[i, j)`, of the capacity headroom `capacity - inventory[k]`,
starting from `capacity`. -/
def minCapacityBetweenCalc (params : FacilityParams) (s : AllocState)
    (e : SpreadEntry) : ℝ :=
  (List.range' e.i (e.j - e.i)).foldl
    (fun m k => min m (params.capacity -
      inventoryAt params.initialInventory s.injections s.withdrawals k))
    params.capacity

/-- The loop body's local `volume = Math.max(0, Math.min(volumeByInjection,
volumeByWithdrawal, volumeByCapacity, availableForWithdrawal))`, with
`volumeByInjection = remainingInjectionCapacity[i]`,
`volumeByWithdrawal = remainingWithdrawalCapacity[j]`,
`volumeByCapacity = minCapacityBetween`, and `availableForWithdrawal`
the inventory after period `j` plus the prospective new injection. -/
def allocVolume (params : FacilityParams) (s : AllocState) (e : SpreadEntry) : ℝ :=
  max 0 (min (s.remainingInjectionCapacity e.i)
    (min (s.remainingWithdrawalCapacity e.j)
      (min (minCapacityBetweenCalc params s e)
        (inventoryAt params.initialInventory s.injections s.withdrawals e.j +
          s.remainingInjectionCapacity e.i))))

/-- The body of the greedy allocation loop for one `positiveSpread` entry.
(The source's unused local `inventoryAfterInjection` is dead code and is not
modelled.) -/
def allocStep (params : FacilityParams) (s : AllocState) (e : SpreadEntry) :
    AllocState :=
  if 0 < allocVolume params s e then
    { injections := Function.update s.injections e.i
        (s.injections e.i + allocVolume params s e)
      withdrawals := Function.update s.withdrawals e.j
        (s.withdrawals e.j + allocVolume params s e)
      remainingInjectionCapacity :=
        Function.update s.remainingInjectionCapacity e.i
          (s.remainingInjectionCapacity e.i - allocVolume params s e)
      remainingWithdrawalCapacity :=
        Function.update s.remainingWithdrawalCapacity e.j
          (s.remainingWithdrawalCapacity e.j - allocVolume params s e)
      totalValue := s.totalValue + allocVolume params s e * e.spread }
  else s

/-- The allocator's initial state: zero committed volumes, full remaining
rate capacities `maxRate × daysInMonth[k]` per period. -/
def initAllocState (prices : List ForwardPrice) (params : FacilityParams) :
    AllocState :=
  { injections := fun _ => 0
    withdrawals := fun _ => 0
    remainingInjectionCapacity := fun k =>
      getMaxMonthlyInjection params (daysAt prices k)
    remainingWithdrawalCapacity := fun k =>
      getMaxMonthlyWithdrawal params (daysAt prices k)
    totalValue := 0 }

/-- The schedule assembler's `peakInventory` accumulator: the maximum of the
initial inventory and every period's ending inventory. -/
def peakInventoryCalc (init : ℝ) (inj wd : ℕ → ℝ) (n : ℕ) : ℝ :=
  (List.range n).foldl (fun m k => max m (inventoryAt init inj wd k)) init

/-- Default facility parameters from the source. -/
def DEFAULT_FACILITY_PARAMS : FacilityParams :=
  { capacity := 1000000
    maxInjectionRate := 10000
    maxWithdrawalRate := 20000
    injectionCost := 0.02
    withdrawalCost := 0.01
    initialInventory := 0
    discountRate := 0.05 }

/-- The allocator's final state: the greedy loop folded over the sorted
positive-spread list starting from the initial state. -/
def finalAllocState (prices : List ForwardPrice) (params : FacilityParams) :
    AllocState :=
  (sortedSpreadEntries prices params).foldl (allocStep params)
    (initAllocState prices params)

/-- Source `optimizeStorage(forwardPrices, params)`. -/
def optimizeStorage (forwardPrices : List ForwardPrice)
    (params : FacilityParams) : OptimizationResult :=
  if forwardPrices.length < 2 then
    { schedule := forwardPrices.map fun p =>
        { month := p.month
          injection := 0
          withdrawal := 0
          netFlow := 0
          endingInventory := params.initialInventory
          price := p.price }
      totalValue := 0
      totalInjection := 0
      totalWithdrawal := 0
      peakInventory := params.initialInventory
      facilityParams := params }
  else
    { schedule := (List.range forwardPrices.length).map fun k =>
        { month := (forwardPrices.getD k default).month
          injection :=
            ((round ((finalAllocState forwardPrices params).injections k) : ℤ) : ℝ)
          withdrawal :=
            ((round ((finalAllocState forwardPrices params).withdrawals k) : ℤ) : ℝ)
          netFlow := ((round ((finalAllocState forwardPrices params).injections k -
            (finalAllocState forwardPrices params).withdrawals k) : ℤ) : ℝ)
          endingInventory := ((round (inventoryAt params.initialInventory
            (finalAllocState forwardPrices params).injections
            (finalAllocState forwardPrices params).withdrawals k) : ℤ) : ℝ)
          price := (forwardPrices.getD k default).price }
      totalValue :=
        ((round ((finalAllocState forwardPrices params).totalValue * 100) : ℤ) : ℝ) / 100
      totalInjection := ((round (∑ k ∈ Finset.range forwardPrices.length,
        (finalAllocState forwardPrices params).injections k) : ℤ) : ℝ)
      totalWithdrawal := ((round (∑ k ∈ Finset.range forwardPrices.length,
        (finalAllocState forwardPrices params).withdrawals k) : ℤ) : ℝ)
      peakInventory := ((round (peakInventoryCalc params.initialInventory
        (finalAllocState forwardPrices params).injections
        (finalAllocState forwardPrices params).withdrawals
        forwardPrices.length) : ℤ) : ℝ)
      facilityParams := params }

/-- Raw forward-curve record, the input element type of `prepareForwardPrices`
(`expiryDate` is optional in the source). -/
structure RawForwardRecord where
  contract : String
  month : String
  price : ℝ
  expiryDate : Option String

/-- The regex letter class `[A-Za-z]`. -/
def isAsciiLetter (c : Char) : Bool :=
  ('A' ≤ c && c ≤ 'Z') || ('a' ≤ c && c ≤ 'z')

/-- The regex whitespace class `\s` of JavaScript: tab, LF, VT, FF, CR,
space, NBSP, Ogham space mark, the Unicode space separators U+2000-U+200A,
the line and paragraph separators, narrow NBSP, medium mathematical space,
ideographic space and the BOM. -/
def isJsWhitespace (c : Char) : Bool :=
  c = ' ' || c = '\t' || c = '\n' || c = '\r' ||
  c.toNat = 0x0B || c.toNat = 0x0C || c.toNat = 0xA0 ||
  c.toNat = 0x1680 || (0x2000 ≤ c.toNat && c.toNat ≤ 0x200A) ||
  c.toNat = 0x2028 || c.toNat = 0x2029 || c.toNat = 0x202F ||
  c.toNat = 0x205F || c.toNat = 0x3000 || c.toNat = 0xFEFF

/-- The regex digit class `\d`. -/
def isDigitChar (c : Char) : Bool :=
  '0' ≤ c && c ≤ '9'

/-- Numeric value of a decimal digit character. -/
def digitVal (c : Char) : ℕ := c.toNat - '0'.toNat

/-- The `(\d{4})` capture at the head of the list, combined with the
`parseInt` of the source: the value of the first four characters when all
four are digits. -/
def fourDigitYear : List Char → Option ℕ
  | a :: b :: c :: d :: _ =>
    if isDigitChar a && isDigitChar b && isDigitChar c && isDigitChar d then
      some (1000 * digitVal a + 100 * digitVal b + 10 * digitVal c + digitVal d)
    else none
  | _ => none

/-- Leftmost match of `/([A-Za-z]+)\s+(\d{4})/`: the first maximal letter run
that is followed by at least one whitespace character and then four digits;
returns capture 1 (the letter run) and the parsed capture 2 (the year).  The
fuel argument only bounds the recursion; `matchMonthYear` supplies enough. -/
def matchMonthYearAux : ℕ → List Char → Option (List Char × ℕ)
  | 0, _ => none
  | _ + 1, [] => none
  | fuel + 1, c :: rest =>
    if isAsciiLetter c then
      let word := (c :: rest).takeWhile isAsciiLetter
      let after := (c :: rest).dropWhile isAsciiLetter
      let afterWs := after.dropWhile isJsWhitespace
      if (after.takeWhile isJsWhitespace).isEmpty then matchMonthYearAux fuel after
      else
        match fourDigitYear afterWs with
        | some y => some (word, y)
        | none => matchMonthYearAux fuel after
    else matchMonthYearAux fuel rest

/-- Source `item.month.match(...)` against the month-year regex, reduced to its two captures. -/
def matchMonthYear (s : List Char) : Option (List Char × ℕ) :=
  matchMonthYearAux (s.length + 1) s

/-- The English month names. -/
def monthNames : List String :=
  ["january", "february", "march", "april", "may", "june",
   "july", "august", "september", "october", "november", "december"]

/-- The three-letter month-name prefixes, the keys of the V8 date parser's
keyword table. -/
def monthPrefixes : List String :=
  ["jan", "feb", "mar", "apr", "may", "jun",
   "jul", "aug", "sep", "oct", "nov", "dec"]

/-- Modelled from the deployed runtime (Node/V8):
`new Date("«word» 1, «year»").getMonth()` succeeds when the word is at least
three letters long and its first three letters, lowercased, spell a
three-letter month prefix — the rest of the word is ignored, so "Maybe" and
"Janx" parse as May and January; it yields that month's 0-based index.  On
any other word the date is invalid and `getMonth()` is `NaN`, modelled as
`none`. -/
def jsMonthIndex (word : List Char) : Option ℕ :=
  let w := (word.map Char.toLower).take 3
  if 3 ≤ word.length then
    (List.range 12).findSome? fun m =>
      if w = (monthPrefixes.getD m "").data then some m else none
  else none

/-- Gregorian leap-year rule. -/
def isLeapYear (y : ℕ) : Bool := y % 4 = 0 && (y % 100 ≠ 0 || y % 400 = 0)

/-- Day count of month `m` (0-based) of `year` in the proleptic Gregorian
calendar. -/
def gregorianDaysInMonth (year m : ℕ) : ℕ :=
  if m = 1 then (if isLeapYear year then 29 else 28)
  else if m = 3 ∨ m = 5 ∨ m = 8 ∨ m = 10 then 30
  else 31

/-- ECMAScript `MakeFullYear`, applied by the `Date(year, month, day)`
constructor: integer years 0 through 99 are interpreted as 1900 + year. -/
def makeFullYear (y : ℕ) : ℕ := if y ≤ 99 then 1900 + y else y

/-- The `daysInMonth` computed by `prepareForwardPrices` for one label:
`some 30` when the regex does not match (the `let daysInMonth = 30` default
survives); `new Date(year, monthIndex + 1, 0).getDate()` — the calendar day
count of the recognised month, with years 0-99 mapped to 1900-1999 — when
the matched word is recognised as a month; `none` — modelling the `NaN` that
`getDate()` returns on an invalid date — when the regex matches but the
word's first three letters spell no month prefix. -/
def labelDaysInMonth (label : String) : Option ℕ :=
  match matchMonthYear label.data with
  | none => some 30
  | some (word, year) =>
    match jsMonthIndex word with
    | some m => some (gregorianDaysInMonth (makeFullYear year) m)
    | none => none

/-- Output element type of `prepareForwardPrices`; `daysInMonth` is `Option`
only to give the `NaN` case a value. -/
structure PreparedForwardPrice where
  contract : String
  month : String
  price : ℝ
  expiryDate : String
  daysInMonth : Option ℕ

instance : Inhabited PreparedForwardPrice := ⟨⟨"", "", 0, "", none⟩⟩

/-- Source `prepareForwardPrices(forwardCurve)`. -/
def prepareForwardPrices (forwardCurve : List RawForwardRecord) :
    List PreparedForwardPrice :=
  forwardCurve.map fun item =>
    { contract := item.contract
      month := item.month
      price := item.price
      expiryDate := item.expiryDate.getD ""
      daysInMonth := labelDaysInMonth item.month }

/-- An English month name in the plain sense of the C8 claim: the full name
or its standard three-letter abbreviation, case-insensitively. -/
def isMonthName (word : List Char) : Option ℕ :=
  let w := word.map Char.toLower
  (List.range 12).findSome? fun m =>
    if w = (monthNames.getD m "").data ∨ w = (monthPrefixes.getD m "").data
    then some m else none

/-- Following the words of the C8 claim: the day count is the calendar day
count of the parsed month, "defaulting to 30 when the month label cannot be
parsed into a month name followed by a 4-digit year". -/
def claimedDaysInMonth (label : String) : ℕ :=
  match matchMonthYear label.data with
  | none => 30
  | some (word, year) =>
    match isMonthName word with
    | some m => gregorianDaysInMonth year m
    | none => 30

theorem roundMono {x y : ℝ} (h : x ≤ y) : round x ≤ round y := by
  rw [round_eq, round_eq]
  exact Int.floor_le_floor (by linarith)

theorem roundNonneg {x : ℝ} (h : 0 ≤ x) : (0 : ℤ) ≤ round x := by
  have := roundMono h
  rwa [round_zero] at this

theorem roundLeIntOfLe {x : ℝ} {m : ℤ} (h : x ≤ (m : ℝ)) : round x ≤ m := by
  have := roundMono h
  rwa [round_intCast] at this

theorem update_add_apply (f : ℕ → ℝ) (a : ℕ) (v : ℝ) (t : ℕ) :
    Function.update f a (f a + v) t = f t + if t = a then v else 0 := by
  rcases eq_or_ne t a with rfl | h
  · simp
  · simp [Function.update_noteq h, h]

theorem sum_update_add (f : ℕ → ℝ) (a n : ℕ) (v : ℝ) :
    ∑ t ∈ Finset.range n, Function.update f a (f a + v) t =
      (∑ t ∈ Finset.range n, f t) + if a < n then v else 0 := by
  simp only [update_add_apply]
  rw [Finset.sum_add_distrib, Finset.sum_ite_eq']
  simp [Finset.mem_range]

theorem cumulativeNet_update (inj wd : ℕ → ℝ) (a b : ℕ) (v : ℝ) (k : ℕ) :
    cumulativeNet (Function.update inj a (inj a + v))
        (Function.update wd b (wd b + v)) k =
      cumulativeNet inj wd k +
        ((if a ≤ k then v else 0) - (if b ≤ k then v else 0)) := by
  unfold cumulativeNet
  have h1 : ∀ t ∈ Finset.range (k + 1),
      Function.update inj a (inj a + v) t - Function.update wd b (wd b + v) t =
        (inj t - wd t) +
          ((if t = a then v else 0) - (if t = b then v else 0)) := by
    intro t _
    rw [update_add_apply, update_add_apply]
    ring
  rw [Finset.sum_congr rfl h1, Finset.sum_add_distrib, Finset.sum_sub_distrib,
    Finset.sum_sub_distrib, Finset.sum_ite_eq', Finset.sum_ite_eq']
  simp [Finset.mem_range, Nat.lt_succ_iff]

theorem foldl_min_le_init (g : ℕ → ℝ) (l : List ℕ) (c : ℝ) :
    l.foldl (fun m k => min m (g k)) c ≤ c := by
  induction l generalizing c with
  | nil => simp
  | cons a l ih => exact le_trans (ih (min c (g a))) (min_le_left _ _)

theorem foldl_min_le_mem (g : ℕ → ℝ) :
    ∀ (l : List ℕ) (c : ℝ) (x : ℕ), x ∈ l →
      l.foldl (fun m k => min m (g k)) c ≤ g x
  | [], _, _, hx => nomatch hx
  | a :: l, c, x, hx => by
    rcases List.mem_cons.mp hx with rfl | hx'
    · exact le_trans (foldl_min_le_init g l (min c (g x))) (min_le_right _ _)
    · exact foldl_min_le_mem g l (min c (g a)) x hx'

theorem foldl_preserves {α β : Type*} {P : β → Prop} {f : β → α → β} :
    ∀ (l : List α) (s : β), (∀ e ∈ l, ∀ t, P t → P (f t e)) → P s →
      P (l.foldl f s)
  | [], s, _, hs => hs
  | e :: l, s, hstep, hs =>
    foldl_preserves l (f s e) (fun x hx => hstep x (List.mem_cons_of_mem e hx))
      (hstep e (List.mem_cons_self e l) s hs)

/-- Case analysis on one allocator iteration: either nothing is committed and
the state is unchanged, or a strictly positive volume bounded by the
remaining rate capacities and by the capacity headroom over `[i, j)` is
committed. -/
theorem allocStep_cases (params : FacilityParams) (s : AllocState)
    (e : SpreadEntry) :
    allocStep params s e = s ∨
      ∃ v : ℝ, 0 < v ∧ v ≤ s.remainingInjectionCapacity e.i ∧
        v ≤ s.remainingWithdrawalCapacity e.j ∧
        (∀ k, e.i ≤ k → k < e.j →
          v ≤ params.capacity -
            inventoryAt params.initialInventory s.injections s.withdrawals k) ∧
        allocStep params s e =
          { injections := Function.update s.injections e.i
              (s.injections e.i + v)
            withdrawals := Function.update s.withdrawals e.j
              (s.withdrawals e.j + v)
            remainingInjectionCapacity :=
              Function.update s.remainingInjectionCapacity e.i
                (s.remainingInjectionCapacity e.i - v)
            remainingWithdrawalCapacity :=
              Function.update s.remainingWithdrawalCapacity e.j
                (s.remainingWithdrawalCapacity e.j - v)
            totalValue := s.totalValue + v * e.spread } := by
  by_cases h : 0 < allocVolume params s e
  · right
    have hm : 0 < min (s.remainingInjectionCapacity e.i)
        (min (s.remainingWithdrawalCapacity e.j)
          (min (minCapacityBetweenCalc params s e)
            (inventoryAt params.initialInventory s.injections s.withdrawals e.j +
              s.remainingInjectionCapacity e.i))) := by
      simp only [lt_min_iff]
      exact (by simpa [allocVolume] using h)
    have hv : allocVolume params s e = min (s.remainingInjectionCapacity e.i)
        (min (s.remainingWithdrawalCapacity e.j)
          (min (minCapacityBetweenCalc params s e)
            (inventoryAt params.initialInventory s.injections s.withdrawals e.j +
              s.remainingInjectionCapacity e.i))) := by
      unfold allocVolume
      exact max_eq_right (le_of_lt hm)
    refine ⟨allocVolume params s e, h, ?_, ?_, ?_, ?_⟩
    · rw [hv]
      exact min_le_left _ _
    · rw [hv]
      exact le_trans (min_le_right _ _) (min_le_left _ _)
    · intro k hik hkj
      have hmem : k ∈ List.range' e.i (e.j - e.i) := by
        rw [List.mem_range'_1]
        omega
      have h1 : allocVolume params s e ≤ minCapacityBetweenCalc params s e := by
        rw [hv]
        exact le_trans (min_le_right _ _)
          (le_trans (min_le_right _ _) (min_le_left _ _))
      refine le_trans h1 ?_
      unfold minCapacityBetweenCalc
      exact foldl_min_le_mem _ (List.range' e.i (e.j - e.i)) params.capacity k hmem
    · unfold allocStep
      rw [if_pos h]
  · left
    unfold allocStep
    rw [if_neg h]

/-- Capacity invariant: the inventory trajectory never exceeds capacity. -/
def CapacityInv (params : FacilityParams) (s : AllocState) : Prop :=
  ∀ k, inventoryAt params.initialInventory s.injections s.withdrawals k ≤
    params.capacity

/-- Nonnegativity invariant: the cumulative net flow through any period is
nonnegative, so inventory never drops below the initial inventory. -/
def NonnegNetInv (s : AllocState) : Prop :=
  ∀ k, 0 ≤ cumulativeNet s.injections s.withdrawals k

/-- Rate invariant: committed volumes are nonnegative and, together with the
remaining capacities, account exactly for the monthly rate limits. -/
def RateInv (prices : List ForwardPrice) (params : FacilityParams)
    (s : AllocState) : Prop :=
  (∀ k, 0 ≤ s.injections k) ∧
  (∀ k, 0 ≤ s.remainingInjectionCapacity k) ∧
  (∀ k, s.injections k + s.remainingInjectionCapacity k =
    getMaxMonthlyInjection params (daysAt prices k)) ∧
  (∀ k, 0 ≤ s.withdrawals k) ∧
  (∀ k, 0 ≤ s.remainingWithdrawalCapacity k) ∧
  (∀ k, s.withdrawals k + s.remainingWithdrawalCapacity k =
    getMaxMonthlyWithdrawal params (daysAt prices k))

theorem allocStep_capacityInv (params : FacilityParams) (s : AllocState)
    (e : SpreadEntry) (hij : e.i < e.j) (hs : CapacityInv params s) :
    CapacityInv params (allocStep params s e) := by
  rcases allocStep_cases params s e with heq | ⟨v, hv, hvi, hvw, hvc, heq⟩
  · rw [heq]
    exact hs
  · intro k
    rw [heq]
    show inventoryAt params.initialInventory
        (Function.update s.injections e.i (s.injections e.i + v))
        (Function.update s.withdrawals e.j (s.withdrawals e.j + v)) k ≤
      params.capacity
    unfold inventoryAt
    rw [cumulativeNet_update]
    have hbase := hs k
    unfold inventoryAt at hbase
    by_cases hik : e.i ≤ k
    · by_cases hjk : e.j ≤ k
      · simp only [if_pos hik, if_pos hjk]
        linarith
      · have hcap := hvc k hik (by omega)
        unfold inventoryAt at hcap
        simp only [if_pos hik, if_neg hjk]
        linarith
    · have hjk : ¬ e.j ≤ k := by omega
      simp only [if_neg hik, if_neg hjk]
      linarith

theorem allocStep_nonnegNetInv (params : FacilityParams) (s : AllocState)
    (e : SpreadEntry) (hij : e.i < e.j) (hs : NonnegNetInv s) :
    NonnegNetInv (allocStep params s e) := by
  rcases allocStep_cases params s e with heq | ⟨v, hv, hvi, hvw, hvc, heq⟩
  · rw [heq]
    exact hs
  · intro k
    rw [heq]
    show 0 ≤ cumulativeNet
        (Function.update s.injections e.i (s.injections e.i + v))
        (Function.update s.withdrawals e.j (s.withdrawals e.j + v)) k
    rw [cumulativeNet_update]
    have hbase := hs k
    by_cases hik : e.i ≤ k
    · by_cases hjk : e.j ≤ k
      · simp only [if_pos hik, if_pos hjk]
        linarith
      · simp only [if_pos hik, if_neg hjk]
        linarith
    · have hjk : ¬ e.j ≤ k := by omega
      simp only [if_neg hik, if_neg hjk]
      linarith

theorem allocStep_rateInv (prices : List ForwardPrice) (params : FacilityParams)
    (s : AllocState) (e : SpreadEntry) (hs : RateInv prices params s) :
    RateInv prices params (allocStep params s e) := by
  obtain ⟨h1, h2, h3, h4, h5, h6⟩ := hs
  rcases allocStep_cases params s e with heq | ⟨v, hv, hvi, hvw, hvc, heq⟩
  · rw [heq]
    exact ⟨h1, h2, h3, h4, h5, h6⟩
  · rw [heq]
    refine ⟨?_, ?_, ?_, ?_, ?_, ?_⟩ <;> intro k <;> dsimp only
    · rcases eq_or_ne k e.i with rfl | hne
      · rw [Function.update_same]
        linarith [h1 e.i]
      · rw [Function.update_noteq hne]
        exact h1 k
    · rcases eq_or_ne k e.i with rfl | hne
      · rw [Function.update_same]
        linarith
      · rw [Function.update_noteq hne]
        exact h2 k
    · rcases eq_or_ne k e.i with rfl | hne
      · rw [Function.update_same, Function.update_same]
        linarith [h3 e.i]
      · rw [Function.update_noteq hne, Function.update_noteq hne]
        exact h3 k
    · rcases eq_or_ne k e.j with rfl | hne
      · rw [Function.update_same]
        linarith [h4 e.j]
      · rw [Function.update_noteq hne]
        exact h4 k
    · rcases eq_or_ne k e.j with rfl | hne
      · rw [Function.update_same]
        linarith
      · rw [Function.update_noteq hne]
        exact h5 k
    · rcases eq_or_ne k e.j with rfl | hne
      · rw [Function.update_same, Function.update_same]
        linarith [h6 e.j]
      · rw [Function.update_noteq hne, Function.update_noteq hne]
        exact h6 k

theorem allocStep_valueInv (params : FacilityParams) (s : AllocState)
    (e : SpreadEntry) (hspread : 0 < e.spread) (hs : 0 ≤ s.totalValue) :
    0 ≤ (allocStep params s e).totalValue := by
  rcases allocStep_cases params s e with heq | ⟨v, hv, hvi, hvw, hvc, heq⟩
  · rw [heq]
    exact hs
  · rw [heq]
    show 0 ≤ s.totalValue + v * e.spread
    have := mul_pos hv hspread
    linarith

theorem allocStep_massInv (n : ℕ) (params : FacilityParams) (s : AllocState)
    (e : SpreadEntry) (hin : e.i < n) (hjn : e.j < n)
    (hs : ∑ k ∈ Finset.range n, s.injections k =
      ∑ k ∈ Finset.range n, s.withdrawals k) :
    ∑ k ∈ Finset.range n, (allocStep params s e).injections k =
      ∑ k ∈ Finset.range n, (allocStep params s e).withdrawals k := by
  rcases allocStep_cases params s e with heq | ⟨v, hv, hvi, hvw, hvc, heq⟩
  · rw [heq]
    exact hs
  · rw [heq]
    show ∑ k ∈ Finset.range n,
        Function.update s.injections e.i (s.injections e.i + v) k =
      ∑ k ∈ Finset.range n,
        Function.update s.withdrawals e.j (s.withdrawals e.j + v) k
    rw [sum_update_add, sum_update_add, if_pos hin, if_pos hjn, hs]

theorem mem_positiveSpreadEntries {n : ℕ} {spreads : List (List ℝ)}
    {e : SpreadEntry} (he : e ∈ positiveSpreadEntries n spreads) :
    e.i < e.j ∧ e.j < n ∧ 0 < e.spread ∧
      e.spread = spreadAt spreads e.i e.j := by
  unfold positiveSpreadEntries at he
  rw [List.mem_flatMap] at he
  obtain ⟨i, hi, he⟩ := he
  rw [List.mem_filterMap] at he
  obtain ⟨j, hj, hsome⟩ := he
  rw [List.mem_range] at hi
  rw [List.mem_range'_1] at hj
  by_cases h : 0 < spreadAt spreads i j
  · rw [if_pos h] at hsome
    have he : e = ⟨i, j, spreadAt spreads i j⟩ := (Option.some.inj hsome).symm
    subst he
    refine ⟨?_, ?_, h, rfl⟩ <;> dsimp only <;> omega
  · rw [if_neg h] at hsome
    simp at hsome

theorem mem_sortedSpreadEntries {prices : List ForwardPrice}
    {params : FacilityParams} {e : SpreadEntry}
    (he : e ∈ sortedSpreadEntries prices params) :
    e.i < e.j ∧ e.j < prices.length ∧ 0 < e.spread ∧
      e.spread = spreadAt (buildSpreadMatrix prices params) e.i e.j := by
  unfold sortedSpreadEntries at he
  rw [List.mem_mergeSort] at he
  exact mem_positiveSpreadEntries he

theorem cumulativeNet_zero (k : ℕ) :
    cumulativeNet (fun _ => 0) (fun _ => 0) k = 0 := by
  unfold cumulativeNet
  simp

theorem finalAllocState_capacityInv (prices : List ForwardPrice)
    (params : FacilityParams)
    (h1 : params.initialInventory ≤ params.capacity) :
    CapacityInv params (finalAllocState prices params) := by
  refine foldl_preserves _ _
    (fun e he t ht =>
      allocStep_capacityInv params t e (mem_sortedSpreadEntries he).1 ht) ?_
  intro k
  show inventoryAt params.initialInventory (fun _ => 0) (fun _ => 0) k ≤
    params.capacity
  unfold inventoryAt
  rw [cumulativeNet_zero]
  linarith

theorem finalAllocState_nonnegNetInv (prices : List ForwardPrice)
    (params : FacilityParams) :
    NonnegNetInv (finalAllocState prices params) := by
  refine foldl_preserves _ _
    (fun e he t ht =>
      allocStep_nonnegNetInv params t e (mem_sortedSpreadEntries he).1 ht) ?_
  intro k
  show (0 : ℝ) ≤ cumulativeNet (fun _ => 0) (fun _ => 0) k
  rw [cumulativeNet_zero]

theorem finalAllocState_rateInv (prices : List ForwardPrice)
    (params : FacilityParams)
    (hinj : ∀ k, 0 ≤ getMaxMonthlyInjection params (daysAt prices k))
    (hwd : ∀ k, 0 ≤ getMaxMonthlyWithdrawal params (daysAt prices k)) :
    RateInv prices params (finalAllocState prices params) := by
  refine foldl_preserves _ _
    (fun e _ t ht => allocStep_rateInv prices params t e ht) ?_
  exact ⟨fun k => le_refl 0, hinj, fun k => zero_add _, fun k => le_refl 0,
    hwd, fun k => zero_add _⟩

theorem finalAllocState_valueNonneg (prices : List ForwardPrice)
    (params : FacilityParams) :
    0 ≤ (finalAllocState prices params).totalValue := by
  refine foldl_preserves (P := fun t : AllocState => 0 ≤ t.totalValue) _ _
    (fun e he t ht =>
      allocStep_valueInv params t e (mem_sortedSpreadEntries he).2.2.1 ht) ?_
  exact le_refl 0

theorem finalAllocState_mass (prices : List ForwardPrice)
    (params : FacilityParams) :
    ∑ k ∈ Finset.range prices.length,
        (finalAllocState prices params).injections k =
      ∑ k ∈ Finset.range prices.length,
        (finalAllocState prices params).withdrawals k := by
  refine foldl_preserves
    (P := fun t : AllocState =>
      ∑ k ∈ Finset.range prices.length, t.injections k =
      ∑ k ∈ Finset.range prices.length, t.withdrawals k) _ _
    (fun e he t ht => ?_) (by simp [initAllocState])
  obtain ⟨hij, hjn, _, _⟩ := mem_sortedSpreadEntries he
  exact allocStep_massInv prices.length params t e (by omega) hjn ht

theorem optimizeStorage_schedule_getD (fp : List ForwardPrice)
    (params : FacilityParams) (h2 : 2 ≤ fp.length) (k : ℕ)
    (hk : k < fp.length) :
    (optimizeStorage fp params).schedule.getD k default =
      { month := (fp.getD k default).month
        injection :=
          ((round ((finalAllocState fp params).injections k) : ℤ) : ℝ)
        withdrawal :=
          ((round ((finalAllocState fp params).withdrawals k) : ℤ) : ℝ)
        netFlow := ((round ((finalAllocState fp params).injections k -
          (finalAllocState fp params).withdrawals k) : ℤ) : ℝ)
        endingInventory := ((round (inventoryAt params.initialInventory
          (finalAllocState fp params).injections
          (finalAllocState fp params).withdrawals k) : ℤ) : ℝ)
        price := (fp.getD k default).price } := by
  unfold optimizeStorage
  rw [if_neg (by omega)]
  dsimp only
  rw [List.getD_eq_getElem _ _ (by simpa using hk), List.getElem_map,
    List.getElem_range]

theorem optimizeStorage_totals_eq (fp : List ForwardPrice)
    (params : FacilityParams) :
    (optimizeStorage fp params).totalInjection =
      (optimizeStorage fp params).totalWithdrawal := by
  unfold optimizeStorage
  by_cases hlen : fp.length < 2
  · rw [if_pos hlen]
  · rw [if_neg hlen]
    dsimp only
    rw [finalAllocState_mass fp params]

theorem optimizeStorage_last_endingInventory (fp : List ForwardPrice)
    (params : FacilityParams) (h2 : 2 ≤ fp.length) :
    ((optimizeStorage fp params).schedule.getD (fp.length - 1)
        default).endingInventory =
      ((round params.initialInventory : ℤ) : ℝ) := by
  rw [optimizeStorage_schedule_getD fp params h2 (fp.length - 1) (by omega)]
  dsimp only
  have hc : cumulativeNet (finalAllocState fp params).injections
      (finalAllocState fp params).withdrawals (fp.length - 1) = 0 := by
    unfold cumulativeNet
    rw [show fp.length - 1 + 1 = fp.length by omega, Finset.sum_sub_distrib,
      finalAllocState_mass fp params, sub_self]
  unfold inventoryAt
  rw [hc, add_zero]

/-- C1 (amended): with `0 ≤ initialInventory ≤ capacity` and an integer
`capacity`, every schedule entry satisfies
`0 ≤ endingInventory ≤ capacity`; the integrality condition is needed only
because the reported ending inventories are rounded — the unrounded running
inventory never leaves `[0, capacity]` (see `finalAllocState_capacityInv` and
`finalAllocState_nonnegNetInv`), but rounding can push a reported value up to
half a unit above a fractional capacity. -/
theorem capacity_bound_amended (fp : List ForwardPrice)
    (params : FacilityParams) (h0 : 0 ≤ params.initialInventory)
    (h1 : params.initialInventory ≤ params.capacity)
    (hcap : ∃ m : ℤ, params.capacity = (m : ℝ)) :
    ∀ s ∈ (optimizeStorage fp params).schedule,
      0 ≤ s.endingInventory ∧ s.endingInventory ≤ params.capacity := by
  obtain ⟨m, hm⟩ := hcap
  intro s hs
  unfold optimizeStorage at hs
  by_cases hlen : fp.length < 2
  · rw [if_pos hlen] at hs
    dsimp only at hs
    rw [List.mem_map] at hs
    obtain ⟨p, hp, rfl⟩ := hs
    exact ⟨h0, h1⟩
  · rw [if_neg hlen] at hs
    dsimp only at hs
    rw [List.mem_map] at hs
    obtain ⟨k, hk, rfl⟩ := hs
    constructor
    · dsimp only
      have hnn := finalAllocState_nonnegNetInv fp params k
      have hinv : 0 ≤ inventoryAt params.initialInventory
          (finalAllocState fp params).injections
          (finalAllocState fp params).withdrawals k := by
        unfold inventoryAt
        linarith
      exact_mod_cast roundNonneg hinv
    · dsimp only
      have hcapk := finalAllocState_capacityInv fp params h1 k
      rw [hm] at hcapk ⊢
      exact_mod_cast roundLeIntOfLe hcapk

/-- C2 (amended): when every period's rate bound `maxRate × daysInMonth` is a
nonnegative integer, every schedule entry's (rounded) injection and
withdrawal respect the bounds; the integrality condition is needed only
because the reported volumes are rounded — the unrounded committed volumes
always respect the bounds. -/
theorem rate_bounds_amended (fp : List ForwardPrice) (params : FacilityParams)
    (hinj : ∀ k, 0 ≤ getMaxMonthlyInjection params (daysAt fp k))
    (hwd : ∀ k, 0 ≤ getMaxMonthlyWithdrawal params (daysAt fp k))
    (hinjInt : ∀ k, ∃ m : ℤ,
      getMaxMonthlyInjection params (daysAt fp k) = (m : ℝ))
    (hwdInt : ∀ k, ∃ m : ℤ,
      getMaxMonthlyWithdrawal params (daysAt fp k) = (m : ℝ)) :
    ∀ k < fp.length,
      ((optimizeStorage fp params).schedule.getD k default).injection ≤
        getMaxMonthlyInjection params (daysAt fp k) ∧
      ((optimizeStorage fp params).schedule.getD k default).withdrawal ≤
        getMaxMonthlyWithdrawal params (daysAt fp k) := by
  intro k hk
  by_cases hlen : fp.length < 2
  · unfold optimizeStorage
    rw [if_pos hlen]
    dsimp only
    rw [List.getD_eq_getElem _ _ (by simpa using hk), List.getElem_map]
    exact ⟨hinj k, hwd k⟩
  · rw [optimizeStorage_schedule_getD fp params (by omega) k hk]
    obtain ⟨q1, q2, q3, q4, q5, q6⟩ := finalAllocState_rateInv fp params hinj hwd
    constructor
    · dsimp only
      obtain ⟨m, hm⟩ := hinjInt k
      have hle : (finalAllocState fp params).injections k ≤
          getMaxMonthlyInjection params (daysAt fp k) := by
        linarith [q2 k, q3 k]
      rw [hm] at hle ⊢
      exact_mod_cast roundLeIntOfLe hle
    · dsimp only
      obtain ⟨m, hm⟩ := hwdInt k
      have hle : (finalAllocState fp params).withdrawals k ≤
          getMaxMonthlyWithdrawal params (daysAt fp k) := by
        linarith [q5 k, q6 k]
      rw [hm] at hle ⊢
      exact_mod_cast roundLeIntOfLe hle

/-- C3 (amended): when the initial inventory is an integer, the final
period's reported ending inventory equals
`initialInventory + totalInjection - totalWithdrawal` exactly, and for
`initialInventory = 0` the total injection equals the total withdrawal (the
latter holds for every input); for a fractional initial inventory the
reported final inventory is `round(initialInventory)`, which breaks exact
equality. -/
theorem mass_balance_amended (fp : List ForwardPrice) (params : FacilityParams)
    (hne : fp ≠ []) (hint : ∃ m : ℤ, params.initialInventory = (m : ℝ)) :
    ((optimizeStorage fp params).schedule.getD (fp.length - 1)
        default).endingInventory =
      params.initialInventory + (optimizeStorage fp params).totalInjection -
        (optimizeStorage fp params).totalWithdrawal ∧
    (params.initialInventory = 0 →
      (optimizeStorage fp params).totalInjection =
        (optimizeStorage fp params).totalWithdrawal) := by
  obtain ⟨m, hm⟩ := hint
  refine ⟨?_, fun _ => optimizeStorage_totals_eq fp params⟩
  by_cases hlen : fp.length < 2
  · have h1 : 0 < fp.length := List.length_pos.mpr hne
    unfold optimizeStorage
    rw [if_pos hlen]
    dsimp only
    rw [show fp.length - 1 = 0 by omega,
      List.getD_eq_getElem _ _ (by simpa using h1), List.getElem_map]
    dsimp only
    ring
  · rw [optimizeStorage_last_endingInventory fp params (by omega),
      optimizeStorage_totals_eq fp params, hm, round_intCast]
    ring

/-- C9 (amended): the total injection always equals the total withdrawal; the
final period's reported ending inventory equals the initial inventory for a
nonempty curve whenever the initial inventory is an integer (in general the
reported value is `round(initialInventory)`). -/
theorem roundtrip_amended (fp : List ForwardPrice) (params : FacilityParams) :
    (optimizeStorage fp params).totalInjection =
      (optimizeStorage fp params).totalWithdrawal ∧
    (fp ≠ [] → (∃ m : ℤ, params.initialInventory = (m : ℝ)) →
      ((optimizeStorage fp params).schedule.getD (fp.length - 1)
          default).endingInventory = params.initialInventory) := by
  refine ⟨optimizeStorage_totals_eq fp params, fun hne hint => ?_⟩
  obtain ⟨m, hm⟩ := hint
  by_cases hlen : fp.length < 2
  · have h1 : 0 < fp.length := List.length_pos.mpr hne
    unfold optimizeStorage
    rw [if_pos hlen]
    dsimp only
    rw [show fp.length - 1 = 0 by omega,
      List.getD_eq_getElem _ _ (by simpa using h1), List.getElem_map]
  · rw [optimizeStorage_last_endingInventory fp params (by omega), hm,
      round_intCast]

/-- C6: the allocator's work list contains only pairs `(i, j)` with `i < j`
and strictly positive spread (volume is committed only to entries of that
list), and the returned total value is nonnegative for every input. -/
theorem positive_pairs_and_value (fp : List ForwardPrice)
    (params : FacilityParams) :
    (∀ e ∈ sortedSpreadEntries fp params, e.i < e.j ∧ 0 < e.spread) ∧
      0 ≤ (optimizeStorage fp params).totalValue := by
  constructor
  · intro e he
    obtain ⟨h1, _, h3, _⟩ := mem_sortedSpreadEntries he
    exact ⟨h1, h3⟩
  · unfold optimizeStorage
    by_cases hlen : fp.length < 2
    · rw [if_pos hlen]
    · rw [if_neg hlen]
      dsimp only
      have htv := finalAllocState_valueNonneg fp params
      have h100 : (0 : ℝ) ≤
          ((round ((finalAllocState fp params).totalValue * 100) : ℤ) : ℝ) := by
        exact_mod_cast roundNonneg (by linarith)
      exact div_nonneg h100 (by norm_num)

/-- C7: a one-period curve yields a length-1 schedule with zero injection,
withdrawal and net flow, total value zero, and ending and peak inventory
equal to the initial inventory. -/
theorem single_period_spec (fp : List ForwardPrice) (params : FacilityParams)
    (h : fp.length = 1) :
    (optimizeStorage fp params).schedule.length = 1 ∧
    (∀ s ∈ (optimizeStorage fp params).schedule,
      s.injection = 0 ∧ s.withdrawal = 0 ∧ s.netFlow = 0 ∧
        s.endingInventory = params.initialInventory) ∧
    (optimizeStorage fp params).totalValue = 0 ∧
    (optimizeStorage fp params).totalInjection = 0 ∧
    (optimizeStorage fp params).totalWithdrawal = 0 ∧
    (optimizeStorage fp params).peakInventory = params.initialInventory := by
  unfold optimizeStorage
  rw [if_pos (by omega)]
  refine ⟨?_, ?_, rfl, rfl, rfl, rfl⟩
  · dsimp only
    rw [List.length_map, h]
  · intro s hs
    dsimp only at hs
    rw [List.mem_map] at hs
    obtain ⟨p, hp, rfl⟩ := hs
    exact ⟨rfl, rfl, rfl, rfl⟩

/-- C10: on an empty curve (excluded by the spec's interface, which requires
length ≥ 1) the engine returns normally: empty schedule, zero totals, and
peak inventory equal to the initial inventory. -/
theorem empty_curve_spec (params : FacilityParams) :
    (optimizeStorage [] params).schedule = [] ∧
    (optimizeStorage [] params).totalValue = 0 ∧
    (optimizeStorage [] params).totalInjection = 0 ∧
    (optimizeStorage [] params).totalWithdrawal = 0 ∧
    (optimizeStorage [] params).peakInventory = params.initialInventory := by
  unfold optimizeStorage
  rw [if_pos (by simp)]
  exact ⟨rfl, rfl, rfl, rfl, rfl⟩

theorem getDiscountFactor_nonneg (k : ℕ) (r : ℝ) (hr : 0 ≤ r) :
    0 ≤ getDiscountFactor k r :=
  Real.rpow_nonneg (by linarith) _

theorem getDiscountFactor_antitone (r : ℝ) (hr : 0 ≤ r) {i j : ℕ}
    (hij : i ≤ j) : getDiscountFactor j r ≤ getDiscountFactor i r := by
  unfold getDiscountFactor
  apply Real.rpow_le_rpow_of_exponent_le (by linarith)
  have h : (i : ℝ) ≤ (j : ℝ) := Nat.cast_le.mpr hij
  linarith

theorem flat_spread_nonpos (fp : List ForwardPrice) (params : FacilityParams)
    (c : ℝ) (hflat : ∀ p ∈ fp, p.price = c) (hc : 0 ≤ c)
    (hr : 0 ≤ params.discountRate) (hic : 0 ≤ params.injectionCost)
    (hwc : 0 ≤ params.withdrawalCost) (i j : ℕ) (hi : i < fp.length)
    (hj : j < fp.length) :
    spreadAt (buildSpreadMatrix fp params) i j ≤ 0 := by
  rw [spreadAt_buildSpreadMatrix _ _ _ _ hi hj]
  by_cases hij : i < j
  · rw [if_pos hij]
    have hpi : priceAt fp i = c := by
      unfold priceAt
      rw [List.getD_eq_getElem _ _ hi]
      exact hflat _ (List.getElem_mem hi)
    have hpj : priceAt fp j = c := by
      unfold priceAt
      rw [List.getD_eq_getElem _ _ hj]
      exact hflat _ (List.getElem_mem hj)
    rw [hpi, hpj]
    have hdfj_le := getDiscountFactor_antitone params.discountRate hr
      (le_of_lt hij)
    have hdfi := getDiscountFactor_nonneg i params.discountRate hr
    have hdfj := getDiscountFactor_nonneg j params.discountRate hr
    have h1 : (c - params.withdrawalCost) * getDiscountFactor j params.discountRate ≤
        c * getDiscountFactor j params.discountRate :=
      mul_le_mul_of_nonneg_right (by linarith) hdfj
    have h2 : c * getDiscountFactor j params.discountRate ≤
        c * getDiscountFactor i params.discountRate :=
      mul_le_mul_of_nonneg_left hdfj_le hc
    have h3 : c * getDiscountFactor i params.discountRate ≤
        (c + params.injectionCost) * getDiscountFactor i params.discountRate :=
      mul_le_mul_of_nonneg_right (by linarith) hdfi
    linarith
  · rw [if_neg hij]

theorem flat_sortedSpreadEntries_nil (fp : List ForwardPrice)
    (params : FacilityParams) (c : ℝ) (hflat : ∀ p ∈ fp, p.price = c)
    (hc : 0 ≤ c) (hr : 0 ≤ params.discountRate)
    (hic : 0 ≤ params.injectionCost) (hwc : 0 ≤ params.withdrawalCost) :
    sortedSpreadEntries fp params = [] := by
  have hnil : positiveSpreadEntries fp.length (buildSpreadMatrix fp params) =
      [] := by
    rw [List.eq_nil_iff_forall_not_mem]
    intro e he
    obtain ⟨hij, hjn, hpos, hsp⟩ := mem_positiveSpreadEntries he
    have hnp := flat_spread_nonpos fp params c hflat hc hr hic hwc e.i e.j
      (by omega) hjn
    rw [← hsp] at hnp
    linarith
  unfold sortedSpreadEntries
  rw [hnil, List.mergeSort_nil]

/-- C5 (amended): for a flat price curve with a nonnegative price level, a
nonnegative discount rate and nonnegative costs, the returned total value is
nonpositive (every spread is nonpositive, so no volume is committed); for a
negative price level — or an extreme discount rate — a flat curve can carry
strictly positive value (see counterexample). -/
theorem flat_curve_value_nonpos (fp : List ForwardPrice)
    (params : FacilityParams) (c : ℝ) (hflat : ∀ p ∈ fp, p.price = c)
    (hc : 0 ≤ c) (hr : 0 ≤ params.discountRate)
    (hic : 0 ≤ params.injectionCost) (hwc : 0 ≤ params.withdrawalCost) :
    (optimizeStorage fp params).totalValue ≤ 0 := by
  unfold optimizeStorage
  by_cases hlen : fp.length < 2
  · rw [if_pos hlen]
  · rw [if_neg hlen]
    dsimp only
    have hfin : finalAllocState fp params = initAllocState fp params := by
      unfold finalAllocState
      rw [flat_sortedSpreadEntries_nil fp params c hflat hc hr hic hwc]
      rfl
    rw [hfin]
    show ((round ((0 : ℝ) * 100) : ℤ) : ℝ) / 100 ≤ 0
    norm_num

/-- C4: for `0 ≤ i < j < n` the spread-matrix entry is the discounted
withdrawal revenue `(price[j] - withdrawalCost)·(1+r)^(-j/12)` minus the
discounted injection cost `(price[i] + injectionCost)·(1+r)^(-i/12)`; entries
with `i ≥ j` are never written and stay zero. -/
theorem spreadMatrix_entry_spec (prices : List ForwardPrice)
    (params : FacilityParams) (i j : ℕ) (hi : i < prices.length)
    (hj : j < prices.length) :
    (i < j → spreadAt (buildSpreadMatrix prices params) i j =
      (priceAt prices j - params.withdrawalCost) *
          getDiscountFactor j params.discountRate -
        (priceAt prices i + params.injectionCost) *
          getDiscountFactor i params.discountRate) ∧
    (j ≤ i → spreadAt (buildSpreadMatrix prices params) i j = 0) := by
  constructor
  · intro hij
    rw [spreadAt_buildSpreadMatrix _ _ _ _ hi hj, if_pos hij]
  · intro hij
    rw [spreadAt_buildSpreadMatrix _ _ _ _ hi hj, if_neg (by omega)]

theorem optimizeStorage_schedule_length (fp : List ForwardPrice)
    (params : FacilityParams) :
    (optimizeStorage fp params).schedule.length = fp.length := by
  unfold optimizeStorage
  by_cases h : fp.length < 2
  · rw [if_pos h]
    dsimp only
    rw [List.length_map]
  · rw [if_neg h]
    dsimp only
    rw [List.length_map, List.length_range]

theorem getDiscountFactor_zero_rate (k : ℕ) : getDiscountFactor k 0 = 1 := by
  unfold getDiscountFactor
  rw [add_zero, Real.one_rpow]

theorem getDiscountFactor_zero_months (r : ℝ) : getDiscountFactor 0 r = 1 := by
  unfold getDiscountFactor
  rw [show -(((0 : ℕ) : ℝ)) / 12 = 0 by norm_num, Real.rpow_zero]

theorem spreadAt_two (fp : List ForwardPrice) (params : FacilityParams)
    (h2 : fp.length = 2) :
    spreadAt (buildSpreadMatrix fp params) 0 1 =
      (priceAt fp 1 - params.withdrawalCost) *
          getDiscountFactor 1 params.discountRate -
        (priceAt fp 0 + params.injectionCost) *
          getDiscountFactor 0 params.discountRate := by
  rw [spreadAt_buildSpreadMatrix fp params 0 1 (by omega) (by omega),
    if_pos (by norm_num)]

theorem sortedSpreadEntries_two (fp : List ForwardPrice)
    (params : FacilityParams) (h2 : fp.length = 2) (v : ℝ)
    (hv : spreadAt (buildSpreadMatrix fp params) 0 1 = v) (hpos : 0 < v) :
    sortedSpreadEntries fp params = [⟨0, 1, v⟩] := by
  unfold sortedSpreadEntries positiveSpreadEntries
  rw [h2]
  rw [show List.range 2 = [0, 1] from rfl]
  simp only [List.flatMap_cons, List.flatMap_nil, List.append_nil]
  rw [show List.range' (0 + 1) (2 - (0 + 1)) = [1] from rfl,
    show List.range' (1 + 1) (2 - (1 + 1)) = ([] : List ℕ) from rfl]
  simp only [List.filterMap_cons, List.filterMap_nil]
  rw [hv, if_pos hpos]
  exact List.mergeSort_singleton _

theorem initState_inventoryAt (fp : List ForwardPrice)
    (params : FacilityParams) (k : ℕ) :
    inventoryAt params.initialInventory (initAllocState fp params).injections
      (initAllocState fp params).withdrawals k = params.initialInventory := by
  show inventoryAt params.initialInventory (fun _ => 0) (fun _ => 0) k = _
  unfold inventoryAt
  rw [cumulativeNet_zero, add_zero]

theorem minCapacityBetweenCalc_two (fp : List ForwardPrice)
    (params : FacilityParams) (v : ℝ) :
    minCapacityBetweenCalc params (initAllocState fp params) ⟨0, 1, v⟩ =
      min params.capacity (params.capacity - params.initialInventory) := by
  unfold minCapacityBetweenCalc
  dsimp only
  rw [show List.range' 0 (1 - 0) = [0] from rfl, List.foldl_cons,
    List.foldl_nil, initState_inventoryAt]

theorem allocVolume_two (fp : List ForwardPrice) (params : FacilityParams)
    (v : ℝ) :
    allocVolume params (initAllocState fp params) ⟨0, 1, v⟩ =
      max 0 (min (getMaxMonthlyInjection params (daysAt fp 0))
        (min (getMaxMonthlyWithdrawal params (daysAt fp 1))
          (min (min params.capacity
              (params.capacity - params.initialInventory))
            (params.initialInventory +
              getMaxMonthlyInjection params (daysAt fp 0))))) := by
  unfold allocVolume
  dsimp only
  rw [minCapacityBetweenCalc_two, initState_inventoryAt]
  rfl

theorem finalAllocState_two (fp : List ForwardPrice) (params : FacilityParams)
    (h2 : fp.length = 2) (v : ℝ)
    (hv : spreadAt (buildSpreadMatrix fp params) 0 1 = v) (hpos : 0 < v) :
    finalAllocState fp params =
      allocStep params (initAllocState fp params) ⟨0, 1, v⟩ := by
  unfold finalAllocState
  rw [sortedSpreadEntries_two fp params h2 v hv hpos, List.foldl_cons,
    List.foldl_nil]

/-- Counterexample input for C1: a fractional capacity of one half. -/
def fpC1 : List ForwardPrice :=
  [{ contract := "", month := "A", price := 1, expiryDate := "", daysInMonth := 1 },
   { contract := "", month := "B", price := 2, expiryDate := "", daysInMonth := 1 }]

/-- Counterexample parameters for C1. -/
def pC1 : FacilityParams :=
  { capacity := 1 / 2, maxInjectionRate := 1, maxWithdrawalRate := 1,
    injectionCost := 0, withdrawalCost := 0, initialInventory := 0,
    discountRate := 0 }

theorem fpC1_spread : spreadAt (buildSpreadMatrix fpC1 pC1) 0 1 = 1 := by
  rw [spreadAt_two fpC1 pC1 rfl]
  norm_num [pC1, fpC1, priceAt, getDiscountFactor_zero_rate]

theorem fpC1_volume :
    allocVolume pC1 (initAllocState fpC1 pC1) ⟨0, 1, 1⟩ = 1 / 2 := by
  rw [allocVolume_two]
  norm_num [pC1, fpC1, getMaxMonthlyInjection, getMaxMonthlyWithdrawal, daysAt,
    min_def, max_def]

theorem fpC1_entry0_ending :
    ((optimizeStorage fpC1 pC1).schedule.getD 0 default).endingInventory = 1 := by
  rw [optimizeStorage_schedule_getD fpC1 pC1 (by norm_num [fpC1]) 0
    (by norm_num [fpC1])]
  dsimp only
  rw [finalAllocState_two fpC1 pC1 rfl 1 fpC1_spread (by norm_num)]
  unfold allocStep
  rw [if_pos (by rw [fpC1_volume]; norm_num)]
  dsimp only
  unfold inventoryAt cumulativeNet
  rw [Finset.sum_range_one, fpC1_volume, Function.update_same,
    Function.update_noteq (show (0 : ℕ) ≠ 1 by norm_num)]
  norm_num [pC1, initAllocState, round_eq]

/-- Counterexample to C1 as stated: with `capacity = 1/2` (and
`0 ≤ initialInventory ≤ capacity`), the first period's reported ending
inventory is the rounded committed volume `round(1/2) = 1 > capacity`. -/
theorem capacity_bound_cex :
    0 ≤ pC1.initialInventory ∧ pC1.initialInventory ≤ pC1.capacity ∧
    ¬ (∀ s ∈ (optimizeStorage fpC1 pC1).schedule,
        0 ≤ s.endingInventory ∧ s.endingInventory ≤ pC1.capacity) := by
  refine ⟨by norm_num [pC1], by norm_num [pC1], fun hall => ?_⟩
  have hlen : 0 < (optimizeStorage fpC1 pC1).schedule.length := by
    rw [optimizeStorage_schedule_length]
    norm_num [fpC1]
  have hmem : (optimizeStorage fpC1 pC1).schedule.getD 0 default ∈
      (optimizeStorage fpC1 pC1).schedule := by
    rw [List.getD_eq_getElem _ _ hlen]
    exact List.getElem_mem hlen
  have hub := (hall _ hmem).2
  rw [fpC1_entry0_ending] at hub
  norm_num [pC1] at hub

/-- Counterexample input for C2: a fractional monthly injection bound. -/
def fpC2 : List ForwardPrice :=
  [{ contract := "", month := "A", price := 1, expiryDate := "", daysInMonth := 1 },
   { contract := "", month := "B", price := 2, expiryDate := "", daysInMonth := 1 }]

/-- Counterexample parameters for C2: `maxInjectionRate × daysInMonth = 1/2`. -/
def pC2 : FacilityParams :=
  { capacity := 100, maxInjectionRate := 1 / 2, maxWithdrawalRate := 1,
    injectionCost := 0, withdrawalCost := 0, initialInventory := 0,
    discountRate := 0 }

theorem fpC2_spread : spreadAt (buildSpreadMatrix fpC2 pC2) 0 1 = 1 := by
  rw [spreadAt_two fpC2 pC2 rfl]
  norm_num [pC2, fpC2, priceAt, getDiscountFactor_zero_rate]

theorem fpC2_volume :
    allocVolume pC2 (initAllocState fpC2 pC2) ⟨0, 1, 1⟩ = 1 / 2 := by
  rw [allocVolume_two]
  norm_num [pC2, fpC2, getMaxMonthlyInjection, getMaxMonthlyWithdrawal, daysAt,
    min_def, max_def]

theorem fpC2_entry0_injection :
    ((optimizeStorage fpC2 pC2).schedule.getD 0 default).injection = 1 := by
  rw [optimizeStorage_schedule_getD fpC2 pC2 (by norm_num [fpC2]) 0
    (by norm_num [fpC2])]
  dsimp only
  rw [finalAllocState_two fpC2 pC2 rfl 1 fpC2_spread (by norm_num)]
  unfold allocStep
  rw [if_pos (by rw [fpC2_volume]; norm_num)]
  dsimp only
  rw [fpC2_volume, Function.update_same]
  norm_num [initAllocState, round_eq]

/-- Counterexample to C2 as stated: with `maxInjectionRate × daysInMonth =
1/2`, the committed volume `1/2` is reported as `round(1/2) = 1`, exceeding
the bound. -/
theorem rate_bounds_cex :
    ¬ (∀ k < fpC2.length,
      ((optimizeStorage fpC2 pC2).schedule.getD k default).injection ≤
        getMaxMonthlyInjection pC2 (daysAt fpC2 k) ∧
      ((optimizeStorage fpC2 pC2).schedule.getD k default).withdrawal ≤
        getMaxMonthlyWithdrawal pC2 (daysAt fpC2 k)) := by
  intro hall
  have h := (hall 0 (by norm_num [fpC2])).1
  rw [fpC2_entry0_injection] at h
  norm_num [pC2, fpC2, getMaxMonthlyInjection, daysAt] at h

/-- Counterexample input for C5: a flat curve at a negative price. -/
def fpC5 : List ForwardPrice :=
  [{ contract := "", month := "A", price := -10, expiryDate := "", daysInMonth := 1 },
   { contract := "", month := "B", price := -10, expiryDate := "", daysInMonth := 1 }]

/-- Counterexample parameters for C5: a discount rate chosen so the discount
factor of month 1 is exactly `1/2` (`(1 + 4095)^(-1/12) = 2^(-1)`). -/
def pC5 : FacilityParams :=
  { capacity := 10, maxInjectionRate := 1, maxWithdrawalRate := 1,
    injectionCost := 0, withdrawalCost := 0, initialInventory := 0,
    discountRate := 4095 }

theorem getDiscountFactor_one_4095 : getDiscountFactor 1 4095 = 1 / 2 := by
  unfold getDiscountFactor
  have h1 : (1 : ℝ) + 4095 = (2 : ℝ) ^ ((12 : ℕ) : ℝ) := by
    rw [Real.rpow_natCast]
    norm_num
  rw [h1, ← Real.rpow_mul (by norm_num : (0 : ℝ) ≤ 2)]
  rw [show ((12 : ℕ) : ℝ) * (-(((1 : ℕ) : ℝ)) / 12) = -1 by push_cast; ring]
  rw [Real.rpow_neg_one]
  norm_num

theorem fpC5_spread : spreadAt (buildSpreadMatrix fpC5 pC5) 0 1 = 5 := by
  rw [spreadAt_two fpC5 pC5 rfl]
  norm_num [pC5, fpC5, priceAt, getDiscountFactor_one_4095,
    getDiscountFactor_zero_months]

theorem fpC5_volume :
    allocVolume pC5 (initAllocState fpC5 pC5) ⟨0, 1, 5⟩ = 1 := by
  rw [allocVolume_two]
  norm_num [pC5, fpC5, getMaxMonthlyInjection, getMaxMonthlyWithdrawal, daysAt,
    min_def, max_def]

theorem fpC5_totalValue : (optimizeStorage fpC5 pC5).totalValue = 5 := by
  unfold optimizeStorage
  rw [if_neg (by norm_num [fpC5])]
  dsimp only
  rw [finalAllocState_two fpC5 pC5 rfl 5 fpC5_spread (by norm_num)]
  unfold allocStep
  rw [if_pos (by rw [fpC5_volume]; norm_num)]
  dsimp only
  rw [fpC5_volume]
  norm_num [initAllocState, round_eq]

/-- Counterexample to C5 as stated: a flat curve at price `-10` with an
extreme (but undocumented-constraint-respecting) discount rate of 409500%
makes deferring the negative-price sale profitable: `totalValue = 5 > 0`.
All constraints the spec documents (`capacity ≥ 0`, rates `> 0`, costs
`≥ 0`, `0 ≤ initialInventory ≤ capacity`) hold. -/
theorem flat_curve_cex :
    (∀ p ∈ fpC5, p.price = -10) ∧ 0 ≤ pC5.capacity ∧
    0 < pC5.maxInjectionRate ∧ 0 < pC5.maxWithdrawalRate ∧
    0 ≤ pC5.injectionCost ∧ 0 ≤ pC5.withdrawalCost ∧
    0 ≤ pC5.initialInventory ∧ pC5.initialInventory ≤ pC5.capacity ∧
    ¬ ((optimizeStorage fpC5 pC5).totalValue ≤ 0) := by
  refine ⟨?_, by norm_num [pC5], by norm_num [pC5], by norm_num [pC5],
    by norm_num [pC5], by norm_num [pC5], by norm_num [pC5],
    by norm_num [pC5], fun hle => ?_⟩
  · intro p hp
    rcases (by simpa [fpC5] using hp :
        p = { contract := "", month := "A", price := (-10 : ℝ),
              expiryDate := "", daysInMonth := 1 } ∨
        p = { contract := "", month := "B", price := (-10 : ℝ),
              expiryDate := "", daysInMonth := 1 }) with rfl | rfl <;> rfl
  · rw [fpC5_totalValue] at hle
    norm_num at hle

/-- Counterexample input for C3: a flat curve (no trade happens). -/
def fpC3 : List ForwardPrice :=
  [{ contract := "", month := "A", price := 1, expiryDate := "", daysInMonth := 1 },
   { contract := "", month := "B", price := 1, expiryDate := "", daysInMonth := 1 }]

/-- Counterexample parameters for C3: fractional initial inventory `1/2`. -/
def pC3 : FacilityParams :=
  { capacity := 10, maxInjectionRate := 1, maxWithdrawalRate := 1,
    injectionCost := 0, withdrawalCost := 0, initialInventory := 1 / 2,
    discountRate := 0 }

theorem fpC3_totals : (optimizeStorage fpC3 pC3).totalInjection = 0 ∧
    (optimizeStorage fpC3 pC3).totalWithdrawal = 0 := by
  have hflat : ∀ p ∈ fpC3, p.price = 1 := by
    intro p hp
    rcases (by simpa [fpC3] using hp :
        p = { contract := "", month := "A", price := (1 : ℝ),
              expiryDate := "", daysInMonth := 1 } ∨
        p = { contract := "", month := "B", price := (1 : ℝ),
              expiryDate := "", daysInMonth := 1 }) with rfl | rfl <;> rfl
  have hnil := flat_sortedSpreadEntries_nil fpC3 pC3 1 hflat (by norm_num)
    (by norm_num [pC3]) (by norm_num [pC3]) (by norm_num [pC3])
  have hfin : finalAllocState fpC3 pC3 = initAllocState fpC3 pC3 := by
    unfold finalAllocState
    rw [hnil]
    rfl
  constructor <;>
  · unfold optimizeStorage
    rw [if_neg (by norm_num [fpC3])]
    dsimp only
    rw [hfin]
    show ((round (∑ _k ∈ Finset.range fpC3.length, (0 : ℝ)) : ℤ) : ℝ) = 0
    simp

/-- Counterexample to C3 as stated: with `initialInventory = 1/2` and a flat
curve (so no volume is committed), the final reported ending inventory is
`round(1/2) = 1`, but `initialInventory + totalInjection - totalWithdrawal =
1/2`. -/
theorem mass_balance_cex :
    ¬ (((optimizeStorage fpC3 pC3).schedule.getD (fpC3.length - 1)
          default).endingInventory =
        pC3.initialInventory + (optimizeStorage fpC3 pC3).totalInjection -
          (optimizeStorage fpC3 pC3).totalWithdrawal) := by
  intro h
  rw [optimizeStorage_last_endingInventory fpC3 pC3 (by norm_num [fpC3]),
    fpC3_totals.1, fpC3_totals.2] at h
  rw [show pC3.initialInventory = 1 / 2 from rfl] at h
  rw [show round ((1 : ℝ) / 2) = 1 by rw [round_eq]; norm_num] at h
  norm_num at h

/-- Counterexample input for C9: a flat curve with fractional initial
inventory `3/2`. -/
def fpC9 : List ForwardPrice :=
  [{ contract := "", month := "A", price := 1, expiryDate := "", daysInMonth := 1 },
   { contract := "", month := "B", price := 1, expiryDate := "", daysInMonth := 1 }]

/-- Counterexample parameters for C9. -/
def pC9 : FacilityParams :=
  { capacity := 10, maxInjectionRate := 1, maxWithdrawalRate := 1,
    injectionCost := 1, withdrawalCost := 0, initialInventory := 3 / 2,
    discountRate := 0 }

/-- Counterexample to C9 as stated: the final reported ending inventory is
`round(3/2) = 2 ≠ 3/2 = initialInventory`. -/
theorem roundtrip_cex :
    ¬ (((optimizeStorage fpC9 pC9).schedule.getD (fpC9.length - 1)
          default).endingInventory = pC9.initialInventory) := by
  intro h
  rw [optimizeStorage_last_endingInventory fpC9 pC9 (by norm_num [fpC9])] at h
  rw [show pC9.initialInventory = 3 / 2 from rfl] at h
  rw [show round ((3 : ℝ) / 2) = 2 by rw [round_eq]; norm_num] at h
  norm_num at h

instance : Inhabited RawForwardRecord := ⟨⟨"", "", 0, none⟩⟩

/-- C8 (amended): `prepareForwardPrices` returns a list of the same length in
the same order, echoing contract, month label and price unchanged;
`daysInMonth` is the Gregorian day count (with years 0-99 read as 1900-1999)
of the month the runtime's date parser recognises — any word of at least
three letters whose first three letters spell a month prefix — when the
label's regex match carries such a word, 30 when the regex
`([A-Za-z]+)\s+(\d{4})` does not match at all, and the `NaN` produced by
`getDate()` on an invalid date (modelled `none`) when the regex matches but
the matched word's first three letters spell no month prefix. -/
theorem prepareForwardPrices_spec (curve : List RawForwardRecord) :
    (prepareForwardPrices curve).length = curve.length ∧
    ∀ k < curve.length,
      ((prepareForwardPrices curve).getD k default).contract =
        (curve.getD k default).contract ∧
      ((prepareForwardPrices curve).getD k default).month =
        (curve.getD k default).month ∧
      ((prepareForwardPrices curve).getD k default).price =
        (curve.getD k default).price ∧
      ((prepareForwardPrices curve).getD k default).daysInMonth =
        (match matchMonthYear ((curve.getD k default).month).data with
          | none => some 30
          | some (word, year) =>
            match jsMonthIndex word with
            | some m => some (gregorianDaysInMonth (makeFullYear year) m)
            | none => none) := by
  constructor
  · unfold prepareForwardPrices
    rw [List.length_map]
  · intro k hk
    unfold prepareForwardPrices
    rw [List.getD_eq_getElem _ _ (by simpa using hk), List.getElem_map,
      List.getD_eq_getElem _ _ hk]
    exact ⟨rfl, rfl, rfl, rfl⟩

/-- Counterexample input for C8: the label matches the regex with a word that
is not a month name. -/
def rawC8 : RawForwardRecord :=
  { contract := "C", month := "Xyz 2026", price := 1, expiryDate := none }

/-- Counterexample to C8 as stated: "Xyz 2026" cannot be parsed into a month
name followed by a 4-digit year ("xyz" spells no month prefix), so the claim
demands the default 30; the code instead matches the regex, feeds
"Xyz 1, 2026" to the date parser and obtains an invalid date, so
`daysInMonth` becomes `NaN` (modelled `none`), not 30. -/
theorem prepare_days_cex :
    claimedDaysInMonth "Xyz 2026" = 30 ∧
    ((prepareForwardPrices [rawC8]).getD 0 default).daysInMonth = none ∧
    ((prepareForwardPrices [rawC8]).getD 0 default).daysInMonth ≠ some 30 := by
  have h : ((prepareForwardPrices [rawC8]).getD 0 default).daysInMonth =
      labelDaysInMonth "Xyz 2026" := rfl
  refine ⟨by decide, ?_, ?_⟩
  · rw [h]
    decide
  · rw [h]
    decide

/-- Witness record for C8's amended theorem. -/
def rawW8 : RawForwardRecord :=
  { contract := "NGG26", month := "Feb 2026", price := 2,
    expiryDate := some "2026-01-27" }

theorem prepareForwardPrices_spec_witness :
    (prepareForwardPrices [rawW8]).length = [rawW8].length ∧
    (((prepareForwardPrices [rawW8]).getD 0 default).contract =
        ([rawW8].getD 0 default).contract ∧
      ((prepareForwardPrices [rawW8]).getD 0 default).month =
        ([rawW8].getD 0 default).month ∧
      ((prepareForwardPrices [rawW8]).getD 0 default).price =
        ([rawW8].getD 0 default).price ∧
      ((prepareForwardPrices [rawW8]).getD 0 default).daysInMonth =
        (match matchMonthYear (([rawW8].getD 0 default).month).data with
          | none => some 30
          | some (word, year) =>
            match jsMonthIndex word with
            | some m => some (gregorianDaysInMonth (makeFullYear year) m)
            | none => none)) :=
  ⟨(prepareForwardPrices_spec [rawW8]).1,
    (prepareForwardPrices_spec [rawW8]).2 0 (by norm_num)⟩

/-- Witness curve: two monthly points. -/
def exCurve : List ForwardPrice :=
  [{ contract := "NGF26", month := "Jan 2026", price := 3, expiryDate := "",
     daysInMonth := 31 },
   { contract := "NGG26", month := "Feb 2026", price := 5, expiryDate := "",
     daysInMonth := 28 }]

/-- Witness curve: a single point. -/
def exSingle : List ForwardPrice :=
  [{ contract := "NGF26", month := "Jan 2026", price := 3, expiryDate := "",
     daysInMonth := 31 }]

/-- Witness curve: flat at price 3. -/
def exFlat : List ForwardPrice :=
  [{ contract := "NGF26", month := "Jan 2026", price := 3, expiryDate := "",
     daysInMonth := 31 },
   { contract := "NGG26", month := "Feb 2026", price := 3, expiryDate := "",
     daysInMonth := 28 }]

theorem capacity_bound_amended_witness :
    0 ≤ ((optimizeStorage exCurve DEFAULT_FACILITY_PARAMS).schedule.getD 0
        default).endingInventory ∧
    ((optimizeStorage exCurve DEFAULT_FACILITY_PARAMS).schedule.getD 0
        default).endingInventory ≤ DEFAULT_FACILITY_PARAMS.capacity := by
  have hlen : 0 <
      (optimizeStorage exCurve DEFAULT_FACILITY_PARAMS).schedule.length := by
    rw [optimizeStorage_schedule_length]
    norm_num [exCurve]
  have hmem : (optimizeStorage exCurve DEFAULT_FACILITY_PARAMS).schedule.getD 0
      default ∈ (optimizeStorage exCurve DEFAULT_FACILITY_PARAMS).schedule := by
    rw [List.getD_eq_getElem _ _ hlen]
    exact List.getElem_mem hlen
  exact capacity_bound_amended exCurve DEFAULT_FACILITY_PARAMS
    (by norm_num [DEFAULT_FACILITY_PARAMS])
    (by norm_num [DEFAULT_FACILITY_PARAMS])
    ⟨1000000, by norm_num [DEFAULT_FACILITY_PARAMS]⟩ _ hmem

theorem exCurve_daysAt (k : ℕ) :
    daysAt exCurve k = 31 ∨ daysAt exCurve k = 28 ∨ daysAt exCurve k = 0 := by
  match k with
  | 0 => exact Or.inl rfl
  | 1 => exact Or.inr (Or.inl rfl)
  | n + 2 =>
    refine Or.inr (Or.inr ?_)
    unfold daysAt
    rw [List.getD_eq_default]
    · rfl
    · show exCurve.length ≤ n + 2
      norm_num [exCurve]

theorem rate_bounds_amended_witness :
    ((optimizeStorage exCurve DEFAULT_FACILITY_PARAMS).schedule.getD 0
        default).injection ≤
      getMaxMonthlyInjection DEFAULT_FACILITY_PARAMS (daysAt exCurve 0) ∧
    ((optimizeStorage exCurve DEFAULT_FACILITY_PARAMS).schedule.getD 0
        default).withdrawal ≤
      getMaxMonthlyWithdrawal DEFAULT_FACILITY_PARAMS (daysAt exCurve 0) :=
  rate_bounds_amended exCurve DEFAULT_FACILITY_PARAMS
    (fun k => by
      rcases exCurve_daysAt k with h | h | h <;>
        rw [getMaxMonthlyInjection, h] <;> norm_num [DEFAULT_FACILITY_PARAMS])
    (fun k => by
      rcases exCurve_daysAt k with h | h | h <;>
        rw [getMaxMonthlyWithdrawal, h] <;> norm_num [DEFAULT_FACILITY_PARAMS])
    (fun k => by
      rcases exCurve_daysAt k with h | h | h
      · refine ⟨310000, ?_⟩
        rw [getMaxMonthlyInjection, h]
        norm_num [DEFAULT_FACILITY_PARAMS]
      · refine ⟨280000, ?_⟩
        rw [getMaxMonthlyInjection, h]
        norm_num [DEFAULT_FACILITY_PARAMS]
      · refine ⟨0, ?_⟩
        rw [getMaxMonthlyInjection, h]
        norm_num)
    (fun k => by
      rcases exCurve_daysAt k with h | h | h
      · refine ⟨620000, ?_⟩
        rw [getMaxMonthlyWithdrawal, h]
        norm_num [DEFAULT_FACILITY_PARAMS]
      · refine ⟨560000, ?_⟩
        rw [getMaxMonthlyWithdrawal, h]
        norm_num [DEFAULT_FACILITY_PARAMS]
      · refine ⟨0, ?_⟩
        rw [getMaxMonthlyWithdrawal, h]
        norm_num)
    0 (by norm_num [exCurve]) |>.imp id id

theorem mass_balance_amended_witness :
    ((optimizeStorage exCurve DEFAULT_FACILITY_PARAMS).schedule.getD
        (exCurve.length - 1) default).endingInventory =
      DEFAULT_FACILITY_PARAMS.initialInventory +
        (optimizeStorage exCurve DEFAULT_FACILITY_PARAMS).totalInjection -
        (optimizeStorage exCurve DEFAULT_FACILITY_PARAMS).totalWithdrawal ∧
    (optimizeStorage exCurve DEFAULT_FACILITY_PARAMS).totalInjection =
      (optimizeStorage exCurve DEFAULT_FACILITY_PARAMS).totalWithdrawal :=
  ⟨(mass_balance_amended exCurve DEFAULT_FACILITY_PARAMS
      (by simp [exCurve]) ⟨0, by norm_num [DEFAULT_FACILITY_PARAMS]⟩).1,
    (mass_balance_amended exCurve DEFAULT_FACILITY_PARAMS
      (by simp [exCurve]) ⟨0, by norm_num [DEFAULT_FACILITY_PARAMS]⟩).2
      (by norm_num [DEFAULT_FACILITY_PARAMS])⟩

theorem spreadMatrix_entry_spec_witness :
    spreadAt (buildSpreadMatrix exCurve DEFAULT_FACILITY_PARAMS) 0 1 =
      (priceAt exCurve 1 - DEFAULT_FACILITY_PARAMS.withdrawalCost) *
          getDiscountFactor 1 DEFAULT_FACILITY_PARAMS.discountRate -
        (priceAt exCurve 0 + DEFAULT_FACILITY_PARAMS.injectionCost) *
          getDiscountFactor 0 DEFAULT_FACILITY_PARAMS.discountRate ∧
    spreadAt (buildSpreadMatrix exCurve DEFAULT_FACILITY_PARAMS) 1 0 = 0 :=
  ⟨(spreadMatrix_entry_spec exCurve DEFAULT_FACILITY_PARAMS 0 1
      (by norm_num [exCurve]) (by norm_num [exCurve])).1 (by norm_num),
    (spreadMatrix_entry_spec exCurve DEFAULT_FACILITY_PARAMS 1 0
      (by norm_num [exCurve]) (by norm_num [exCurve])).2 (by norm_num)⟩

theorem flat_curve_value_nonpos_witness :
    (optimizeStorage exFlat DEFAULT_FACILITY_PARAMS).totalValue ≤ 0 :=
  flat_curve_value_nonpos exFlat DEFAULT_FACILITY_PARAMS 3
    (by
      intro p hp
      rcases (by simpa [exFlat] using hp :
          p = { contract := "NGF26", month := "Jan 2026", price := (3 : ℝ),
                expiryDate := "", daysInMonth := 31 } ∨
          p = { contract := "NGG26", month := "Feb 2026", price := (3 : ℝ),
                expiryDate := "", daysInMonth := 28 }) with rfl | rfl <;> rfl)
    (by norm_num) (by norm_num [DEFAULT_FACILITY_PARAMS])
    (by norm_num [DEFAULT_FACILITY_PARAMS])
    (by norm_num [DEFAULT_FACILITY_PARAMS])

theorem single_period_spec_witness :
    (optimizeStorage exSingle DEFAULT_FACILITY_PARAMS).schedule.length = 1 ∧
    (optimizeStorage exSingle DEFAULT_FACILITY_PARAMS).totalValue = 0 ∧
    (optimizeStorage exSingle DEFAULT_FACILITY_PARAMS).peakInventory =
      DEFAULT_FACILITY_PARAMS.initialInventory ∧
    (((optimizeStorage exSingle DEFAULT_FACILITY_PARAMS).schedule.getD 0
        default).injection = 0 ∧
      ((optimizeStorage exSingle DEFAULT_FACILITY_PARAMS).schedule.getD 0
        default).withdrawal = 0 ∧
      ((optimizeStorage exSingle DEFAULT_FACILITY_PARAMS).schedule.getD 0
        default).netFlow = 0 ∧
      ((optimizeStorage exSingle DEFAULT_FACILITY_PARAMS).schedule.getD 0
        default).endingInventory =
        DEFAULT_FACILITY_PARAMS.initialInventory) := by
  obtain ⟨h1, h2, h3, h4, h5, h6⟩ :=
    single_period_spec exSingle DEFAULT_FACILITY_PARAMS rfl
  have hlen : 0 <
      (optimizeStorage exSingle DEFAULT_FACILITY_PARAMS).schedule.length := by
    rw [h1]
    norm_num
  have hmem : (optimizeStorage exSingle DEFAULT_FACILITY_PARAMS).schedule.getD 0
      default ∈ (optimizeStorage exSingle DEFAULT_FACILITY_PARAMS).schedule := by
    rw [List.getD_eq_getElem _ _ hlen]
    exact List.getElem_mem hlen
  exact ⟨h1, h3, h6, h2 _ hmem⟩

theorem roundtrip_amended_witness :
    (optimizeStorage exCurve DEFAULT_FACILITY_PARAMS).totalInjection =
      (optimizeStorage exCurve DEFAULT_FACILITY_PARAMS).totalWithdrawal ∧
    ((optimizeStorage exCurve DEFAULT_FACILITY_PARAMS).schedule.getD
        (exCurve.length - 1) default).endingInventory =
      DEFAULT_FACILITY_PARAMS.initialInventory :=
  ⟨(roundtrip_amended exCurve DEFAULT_FACILITY_PARAMS).1,
    (roundtrip_amended exCurve DEFAULT_FACILITY_PARAMS).2 (by simp [exCurve])
      ⟨0, by norm_num [DEFAULT_FACILITY_PARAMS]⟩⟩
